import Mathlib

/-!
Verification of the probe-rs flash-programming core against its specification.

The repository keeps four source files: `src/ocd/src/probe/flash/mod.rs` (the
flash engine's module roster: builder, flasher, memory, loader, download,
parser), `src/cli/src/main.rs` (the CLI boundary), `src/ocd-targets/build.rs`
(the build-time target registry generator) and `src/probe-rs/src/config.rs`
(the lazily initialized process configuration).  The flash submodule bodies
themselves are not part of the tree, so the builder, loader and parser are
modelled from the specification text; the CLI boundary, the registry keying
and the configuration bootstrap are embedded from the Rust sources directly.

Machine integers are modelled as `Nat`; bytes are `Nat` values (< 256 in all
concrete instances); fallible operations return `Except`.
-/

/-! ## Flash Builder: data model -/

/-- Modelled from the spec: `WriteRequest{address, bytes}` supplied by a
caller (§3); ephemeral input to the Flash Builder. -/
structure WriteRequest where
  address : Nat
  bytes : List Nat
deriving DecidableEq, Repr

/-- Modelled from the spec: memory-map `Region{start, size, kind}` (§3); the
builder only distinguishes Flash regions from the rest. -/
structure Region where
  start : Nat
  size : Nat
  isFlash : Bool
deriving DecidableEq, Repr

/-- Modelled from the spec: the `FlashAlgorithm` function table (§3);
`program_page` and `erase_sector` entry points are mandatory, the rest are
optional. -/
structure FlashFunctions where
  init : Option Nat
  uninit : Option Nat
  erase_sector : Nat
  program_page : Nat
  erase_all : Option Nat
deriving DecidableEq, Repr

/-- Modelled from the spec: the validated `FlashAlgorithm` (§3): relocatable
code, load address, entry-point table, page/sector geometry, stack top, and
the erase-fill byte an erased cell reads as (conventionally all-ones). -/
structure FlashAlgorithm where
  code : List Nat
  load_address : Nat
  functions : FlashFunctions
  page_size : Nat
  sector_size : Nat
  stack_top : Nat
  erased_byte : Nat
deriving DecidableEq, Repr

/-- Modelled from the spec: derived programming unit `FlashPage` (§3):
page-aligned address and a `page_size`-long, erase-fill padded payload. -/
structure FlashPage where
  address : Nat
  payload : List Nat
deriving DecidableEq, Repr

/-- Modelled from the spec: derived programming unit `FlashSector` (§3): a
sector-aligned address and the pages to program inside it. -/
structure FlashSector where
  address : Nat
  pages : List FlashPage
deriving DecidableEq, Repr

/-- Does request `r` cover absolute address `a`? -/
def covers (r : WriteRequest) (a : Nat) : Bool :=
  decide (r.address ≤ a) && decide (a < r.address + r.bytes.length)

/-- The byte request `r` writes at absolute address `a`, if it covers `a`. -/
def byteAt (r : WriteRequest) (a : Nat) : Option Nat :=
  if covers r a then r.bytes[a - r.address]? else none

/-- Modelled from the spec: `add_data(address, bytes)` records a write
request; requests may arrive in any order, need not be contiguous, and
insertion never fails (§4.3). -/
def add_data (st : List WriteRequest) (address : Nat) (bytes : List Nat) :
    List WriteRequest :=
  st ++ [⟨address, bytes⟩]

/-! ## Flash Builder: canonicalization

`build()` is required to be independent of `add_data` call order, so the
builder first brings the recorded requests into a canonical order (a total
lexicographic order on address, then content). -/

/-- Lexicographic order on byte lists. -/
def listLe : List Nat → List Nat → Bool
  | [], _ => true
  | _ :: _, [] => false
  | a :: as, b :: bs =>
    if a < b then true else if b < a then false else listLe as bs

/-- Total order on write requests: by address, then by content. -/
def reqLe (r1 r2 : WriteRequest) : Bool :=
  if r1.address < r2.address then true
  else if r2.address < r1.address then false
  else listLe r1.bytes r2.bytes

theorem listLe_total : ∀ xs ys : List Nat, listLe xs ys = true ∨ listLe ys xs = true
  | [], _ => Or.inl rfl
  | _ :: _, [] => Or.inr rfl
  | a :: as, b :: bs => by
    by_cases hab : a < b
    · exact Or.inl (by simp [listLe, hab])
    · by_cases hba : b < a
      · exact Or.inr (by simp [listLe, hba, hab])
      · have hcases := listLe_total as bs
        rcases hcases with h | h
        · exact Or.inl (by simp [listLe, hab, hba, h])
        · exact Or.inr (by simp [listLe, hab, hba, h])

theorem listLe_trans : ∀ xs ys zs : List Nat,
    listLe xs ys = true → listLe ys zs = true → listLe xs zs = true
  | [], _, _ => fun _ _ => rfl
  | _ :: _, [], _ => fun h _ => by simp [listLe] at h
  | _ :: _, _ :: _, [] => fun _ h => by simp [listLe] at h
  | a :: as, b :: bs, c :: cs => fun h1 h2 => by
    by_cases hab : a < b
    · by_cases hbc : b < c
      · have hac : a < c := Nat.lt_trans hab hbc
        simp [listLe, hac]
      · by_cases hcb : c < b
        · simp [listLe, hbc, hcb] at h2
        · have hbc' : b = c := Nat.le_antisymm (Nat.not_lt.mp hcb) (Nat.not_lt.mp hbc)
          have hac : a < c := hbc' ▸ hab
          simp [listLe, hac]
    · by_cases hba : b < a
      · simp [listLe, hab, hba] at h1
      · have hab' : a = b := Nat.le_antisymm (Nat.not_lt.mp hba) (Nat.not_lt.mp hab)
        subst hab'
        by_cases hac : a < c
        · simp [listLe, hac]
        · by_cases hca : c < a
          · simp [listLe, hac, hca] at h2
          · have h1' : listLe as bs = true := by simpa [listLe, hab, hba] using h1
            have h2' : listLe bs cs = true := by simpa [listLe, hac, hca] using h2
            simp [listLe, hac, hca, listLe_trans as bs cs h1' h2']

theorem listLe_antisymm : ∀ xs ys : List Nat,
    listLe xs ys = true → listLe ys xs = true → xs = ys
  | [], [] => fun _ _ => rfl
  | [], _ :: _ => fun _ h => by simp [listLe] at h
  | _ :: _, [] => fun h _ => by simp [listLe] at h
  | a :: as, b :: bs => fun h1 h2 => by
    by_cases hab : a < b
    · simp [listLe, hab, Nat.not_lt.mpr (Nat.le_of_lt hab), Nat.lt_irrefl] at h2
    · by_cases hba : b < a
      · simp [listLe, hab, hba] at h1
      · have hab' : a = b := Nat.le_antisymm (Nat.not_lt.mp hba) (Nat.not_lt.mp hab)
        subst hab'
        have h1' : listLe as bs = true := by simpa [listLe, hab, hba] using h1
        have h2' : listLe bs as = true := by simpa [listLe, hab, hba] using h2
        rw [listLe_antisymm as bs h1' h2']

theorem reqLe_total : ∀ r1 r2 : WriteRequest, reqLe r1 r2 = true ∨ reqLe r2 r1 = true := by
  intro r1 r2
  by_cases h12 : r1.address < r2.address
  · exact Or.inl (by simp [reqLe, h12])
  · by_cases h21 : r2.address < r1.address
    · exact Or.inr (by simp [reqLe, h21])
    · rcases listLe_total r1.bytes r2.bytes with h | h
      · exact Or.inl (by simp [reqLe, h12, h21, h])
      · exact Or.inr (by simp [reqLe, h12, h21, h])

theorem reqLe_trans : ∀ r1 r2 r3 : WriteRequest,
    reqLe r1 r2 = true → reqLe r2 r3 = true → reqLe r1 r3 = true := by
  intro r1 r2 r3 h1 h2
  by_cases h12 : r1.address < r2.address
  · by_cases h23 : r2.address < r3.address
    · simp [reqLe, Nat.lt_trans h12 h23]
    · by_cases h32 : r3.address < r2.address
      · simp [reqLe, h23, h32] at h2
      · have he : r2.address = r3.address :=
          Nat.le_antisymm (Nat.not_lt.mp h32) (Nat.not_lt.mp h23)
        simp [reqLe, he ▸ h12]
  · by_cases h21 : r2.address < r1.address
    · simp [reqLe, h12, h21] at h1
    · have he : r1.address = r2.address :=
        Nat.le_antisymm (Nat.not_lt.mp h21) (Nat.not_lt.mp h12)
      by_cases h23 : r2.address < r3.address
      · simp [reqLe, he ▸ h23]
      · by_cases h32 : r3.address < r2.address
        · simp [reqLe, h23, h32] at h2
        · have he2 : r2.address = r3.address :=
            Nat.le_antisymm (Nat.not_lt.mp h32) (Nat.not_lt.mp h23)
          have h1' : listLe r1.bytes r2.bytes = true := by
            simpa [reqLe, h12, h21] using h1
          have h2' : listLe r2.bytes r3.bytes = true := by
            simpa [reqLe, h23, h32] using h2
          have h13 : ¬ r1.address < r3.address := by omega
          have h31 : ¬ r3.address < r1.address := by omega
          simp [reqLe, h13, h31, listLe_trans _ _ _ h1' h2']

theorem reqLe_antisymm : ∀ r1 r2 : WriteRequest,
    reqLe r1 r2 = true → reqLe r2 r1 = true → r1 = r2 := by
  intro r1 r2 h1 h2
  by_cases h12 : r1.address < r2.address
  · simp [reqLe, h12, Nat.not_lt.mpr (Nat.le_of_lt h12), Nat.lt_irrefl] at h2
  · by_cases h21 : r2.address < r1.address
    · simp [reqLe, h12, h21] at h1
    · have he : r1.address = r2.address :=
        Nat.le_antisymm (Nat.not_lt.mp h21) (Nat.not_lt.mp h12)
      have h1' : listLe r1.bytes r2.bytes = true := by simpa [reqLe, h12, h21] using h1
      have h2' : listLe r2.bytes r1.bytes = true := by simpa [reqLe, h12, h21] using h2
      have hb : r1.bytes = r2.bytes := listLe_antisymm _ _ h1' h2'
      cases r1; cases r2
      simp_all

/-- The canonical request order as a `Prop`-valued relation. -/
def ReqOrder (r1 r2 : WriteRequest) : Prop := reqLe r1 r2 = true

instance : DecidableRel ReqOrder := fun r1 r2 => instDecidableEqBool (reqLe r1 r2) true

instance : IsTotal WriteRequest ReqOrder := ⟨reqLe_total⟩

instance : IsTrans WriteRequest ReqOrder := ⟨reqLe_trans⟩

instance : IsAntisymm WriteRequest ReqOrder := ⟨reqLe_antisymm⟩

/-- Canonical ordering of the recorded requests; `build()` works on this
order so that its output cannot depend on `add_data` call order. -/
def canon (st : List WriteRequest) : List WriteRequest :=
  List.insertionSort ReqOrder st

theorem canon_perm (st : List WriteRequest) : (canon st).Perm st :=
  List.perm_insertionSort ReqOrder st

theorem canon_eq_of_perm {st st' : List WriteRequest} (h : st.Perm st') :
    canon st = canon st' :=
  List.eq_of_perm_of_sorted
    ((canon_perm st).trans (h.trans (canon_perm st').symm))
    (List.sorted_insertionSort ReqOrder st)
    (List.sorted_insertionSort ReqOrder st')

/-! ## Flash Builder: build() -/

/-- Is absolute address `a` requested by any recorded request? -/
def requested (rs : List WriteRequest) (a : Nat) : Bool :=
  rs.any (fun r => covers r a)

/-- The byte the plan must program at address `a`: the byte of a covering
request, or the erase-fill byte when `a` merely pads a touched page. -/
def byteOrFill (rs : List WriteRequest) (fill a : Nat) : Nat :=
  match rs.findSome? (fun r => byteAt r a) with
  | some b => b
  | none => fill

/-- One past the highest address any recorded request touches. -/
def maxAddr (rs : List WriteRequest) : Nat :=
  rs.foldr (fun r m => Nat.max (r.address + r.bytes.length) m) 0

/-- Do two recorded requests write different bytes at address `a`? -/
def conflictAt (rs : List WriteRequest) (a : Nat) : Bool :=
  rs.any (fun r1 => rs.any (fun r2 =>
    match byteAt r1 a, byteAt r2 a with
    | some b1, some b2 => decide (b1 ≠ b2)
    | _, _ => false))

/-- The lowest address at which two recorded requests conflict, if any. -/
def findConflict (rs : List WriteRequest) : Option Nat :=
  ((List.range (maxAddr rs)).filter (fun a => conflictAt rs a)).head?

/-- Group a strictly ascending address list into maximal contiguous runs,
given an open run starting at `start` with `len` addresses so far. -/
def groupRunsAux (start len : Nat) : List Nat → List (Nat × Nat)
  | [] => [(start, len)]
  | b :: rest =>
    if b = start + len then groupRunsAux start (len + 1) rest
    else (start, len) :: groupRunsAux b 1 rest

/-- Modelled from the spec: `build()` merges requests into ascending
non-overlapping runs (§4.3); each run is a maximal contiguous block of
requested addresses, listed as (start, length). -/
def runs (rs : List WriteRequest) : List (Nat × Nat) :=
  match (List.range (maxAddr rs)).filter (fun a => requested rs a) with
  | [] => []
  | a :: rest => groupRunsAux a 1 rest

/-- Does some Flash region of the memory map contain address `a`? -/
def inFlash (mm : List Region) (a : Nat) : Bool :=
  mm.any (fun r => r.isFlash && decide (r.start ≤ a) && decide (a < r.start + r.size))

/-- Does the run lie entirely outside every Flash region? -/
def runOutside (mm : List Region) (run : Nat × Nat) : Bool :=
  (List.range run.2).all (fun i => ! inFlash mm (run.1 + i))

/-- The page payload starting at `addr`: requested bytes where present,
erase-fill elsewhere, always exactly `pageSize` bytes. -/
def pagePayload (rs : List WriteRequest) (fill pageSize addr : Nat) : List Nat :=
  (List.range pageSize).map (fun i => byteOrFill rs fill (addr + i))

/-- Does the page starting at `addr` contain a requested byte? -/
def pageTouched (rs : List WriteRequest) (pageSize addr : Nat) : Bool :=
  (List.range pageSize).any (fun i => requested rs (addr + i))

/-- The touched pages of the sector based at `base`, in ascending order. -/
def sectorPages (rs : List WriteRequest) (algo : FlashAlgorithm) (base : Nat) :
    List FlashPage :=
  ((List.range (algo.sector_size / algo.page_size)).filter
      (fun p => pageTouched rs algo.page_size (base + p * algo.page_size))).map
    (fun p => ⟨base + p * algo.page_size,
      pagePayload rs algo.erased_byte algo.page_size (base + p * algo.page_size)⟩)

/-- Does sector number `idx` contain a requested byte? -/
def sectorTouched (rs : List WriteRequest) (sectorSize idx : Nat) : Bool :=
  (List.range sectorSize).any (fun i => requested rs (idx * sectorSize + i))

/-- Number of sector slots the plan has to consider (ceiling division). -/
def numSectors (rs : List WriteRequest) (sectorSize : Nat) : Nat :=
  (maxAddr rs + sectorSize - 1) / sectorSize

/-- The ordered sector plan: one `FlashSector` per touched sector, in
ascending address order. -/
def buildSectors (algo : FlashAlgorithm) (rs : List WriteRequest) :
    List FlashSector :=
  ((List.range (numSectors rs algo.sector_size)).filter
      (fun s => sectorTouched rs algo.sector_size s)).map
    (fun s => ⟨s * algo.sector_size, sectorPages rs algo (s * algo.sector_size)⟩)

/-- Modelled from the spec: `BuildError` (§7): conflicting or out-of-range
write requests, detected before any hardware access. -/
inductive BuildError
  | ConflictingData (address : Nat)
  | OutOfRange (address len : Nat)
deriving DecidableEq, Repr

/-- Modelled from the spec: `build(algorithm)` (§4.3): canonicalize the
recorded requests, fail with `ConflictingData` on a content-conflicting
overlap, fail with `OutOfRange` on a run entirely outside every Flash
region, otherwise emit the ascending sector plan. -/
def build (algo : FlashAlgorithm) (mm : List Region) (st : List WriteRequest) :
    Except BuildError (List FlashSector) :=
  match findConflict (canon st) with
  | some a => .error (.ConflictingData a)
  | none =>
    match (runs (canon st)).find? (fun run => runOutside mm run) with
    | some run => .error (.OutOfRange run.1 run.2)
    | none => .ok (buildSectors algo (canon st))

/-! ## Flash Builder: basic lemmas -/

theorem le_maxAddr {rs : List WriteRequest} {r : WriteRequest} (h : r ∈ rs) :
    r.address + r.bytes.length ≤ maxAddr rs := by
  induction rs with
  | nil => cases h
  | cons x xs ih =>
    rcases List.mem_cons.mp h with h | h
    · subst h; simp [maxAddr]
    · exact Nat.le_trans (ih h) (by simp [maxAddr])

theorem covers_lt_maxAddr {rs : List WriteRequest} {r : WriteRequest} {a : Nat}
    (hr : r ∈ rs) (hc : covers r a = true) : a < maxAddr rs := by
  have hb := le_maxAddr hr
  have : a < r.address + r.bytes.length := by
    simpa [covers] using (Bool.and_elim_right hc)
  omega

theorem requested_lt_maxAddr {rs : List WriteRequest} {a : Nat}
    (h : requested rs a = true) : a < maxAddr rs := by
  rcases List.any_eq_true.mp h with ⟨r, hr, hc⟩
  exact covers_lt_maxAddr hr hc

theorem requested_iff {rs : List WriteRequest} {a : Nat} :
    requested rs a = true ↔ ∃ r ∈ rs, covers r a = true := List.any_eq_true

theorem byteAt_eq_none {r : WriteRequest} {a : Nat} (h : covers r a = false) :
    byteAt r a = none := by
  simp [byteAt, h]

theorem covers_of_byteAt {r : WriteRequest} {a : Nat} {b : Nat}
    (h : byteAt r a = some b) : covers r a = true := by
  by_cases hc : covers r a
  · exact hc
  · simp [byteAt, hc] at h

theorem requested_canon (st : List WriteRequest) (a : Nat) :
    requested (canon st) a = requested st a := by
  rw [Bool.eq_iff_iff, requested_iff, requested_iff]
  constructor
  · rintro ⟨r, hr, hc⟩; exact ⟨r, (canon_perm st).mem_iff.mp hr, hc⟩
  · rintro ⟨r, hr, hc⟩; exact ⟨r, (canon_perm st).mem_iff.mpr hr, hc⟩

/-! ## Flash Builder: conflict characterization -/

/-- Two recorded requests write different bytes at address `a` (the
specification's notion of a content-conflicting overlap). -/
def twoDiffer (rs : List WriteRequest) (a : Nat) : Prop :=
  ∃ r1 ∈ rs, ∃ r2 ∈ rs,
    byteAt r1 a ≠ byteAt r2 a ∧ byteAt r1 a ≠ none ∧ byteAt r2 a ≠ none

instance (rs : List WriteRequest) (a : Nat) : Decidable (twoDiffer rs a) := by
  unfold twoDiffer; infer_instance

theorem conflictAt_iff {rs : List WriteRequest} {a : Nat} :
    conflictAt rs a = true ↔ twoDiffer rs a := by
  constructor
  · intro h
    rcases List.any_eq_true.mp h with ⟨r1, hr1, h1⟩
    rcases List.any_eq_true.mp h1 with ⟨r2, hr2, h2⟩
    rcases hb1 : byteAt r1 a with _ | b1 <;> rcases hb2 : byteAt r2 a with _ | b2 <;>
      simp [hb1, hb2] at h2
    exact ⟨r1, hr1, r2, hr2, by simp [hb1, hb2, h2]⟩
  · rintro ⟨r1, hr1, r2, hr2, hne, hn1, hn2⟩
    rcases Option.ne_none_iff_exists'.mp hn1 with ⟨b1, hb1⟩
    rcases Option.ne_none_iff_exists'.mp hn2 with ⟨b2, hb2⟩
    refine List.any_eq_true.mpr ⟨r1, hr1, List.any_eq_true.mpr ⟨r2, hr2, ?_⟩⟩
    have : b1 ≠ b2 := by rw [hb1, hb2] at hne; simpa using hne
    simp [hb1, hb2, this]

theorem twoDiffer_lt_maxAddr {rs : List WriteRequest} {a : Nat}
    (h : twoDiffer rs a) : a < maxAddr rs := by
  rcases h with ⟨r1, hr1, _, _, _, hn1, _⟩
  rcases Option.ne_none_iff_exists'.mp hn1 with ⟨b1, hb1⟩
  exact covers_lt_maxAddr hr1 (covers_of_byteAt hb1)

theorem findConflict_eq_none_iff {rs : List WriteRequest} :
    findConflict rs = none ↔ ∀ a, ¬ twoDiffer rs a := by
  rw [findConflict, List.head?_eq_none_iff, List.filter_eq_nil_iff]
  constructor
  · intro h a hd
    exact h a (List.mem_range.mpr (twoDiffer_lt_maxAddr hd)) (conflictAt_iff.mpr hd)
  · intro h a _ hc
    exact h a (conflictAt_iff.mp hc)

theorem findConflict_some {rs : List WriteRequest} {a : Nat}
    (h : findConflict rs = some a) : twoDiffer rs a := by
  have h' : ((List.range (maxAddr rs)).filter (fun x => conflictAt rs x)).head? = some a := h
  have hm : a ∈ (List.range (maxAddr rs)).filter (fun x => conflictAt rs x) :=
    List.mem_of_mem_head? (Option.mem_def.mpr h')
  exact conflictAt_iff.mp (List.mem_filter.mp hm).2

theorem twoDiffer_canon_iff (st : List WriteRequest) (a : Nat) :
    twoDiffer (canon st) a ↔ twoDiffer st a := by
  unfold twoDiffer
  constructor
  · rintro ⟨r1, h1, r2, h2, hp⟩
    exact ⟨r1, (canon_perm st).mem_iff.mp h1, r2, (canon_perm st).mem_iff.mp h2, hp⟩
  · rintro ⟨r1, h1, r2, h2, hp⟩
    exact ⟨r1, (canon_perm st).mem_iff.mpr h1, r2, (canon_perm st).mem_iff.mpr h2, hp⟩

/-! ## Flash Builder: run lemmas -/

theorem groupRunsAux_mem : ∀ (xs : List Nat) (start len : Nat), 0 < len →
    ∀ p ∈ groupRunsAux start len xs, 0 < p.2 ∧ (p.1 = start ∨ p.1 ∈ xs)
  | [], start, len => by
    intro hlen p hp
    simp [groupRunsAux] at hp
    subst hp
    exact ⟨hlen, Or.inl rfl⟩
  | b :: rest, start, len => by
    intro hlen p hp
    by_cases hb : b = start + len
    · simp only [groupRunsAux, if_pos hb] at hp
      rcases groupRunsAux_mem rest start (len + 1) (Nat.succ_pos len) p hp with ⟨h2, h3⟩
      exact ⟨h2, h3.imp id (fun h => List.mem_cons_of_mem b h)⟩
    · simp only [groupRunsAux, if_neg hb] at hp
      rcases List.mem_cons.mp hp with h | h
      · subst h; exact ⟨hlen, Or.inl rfl⟩
      · rcases groupRunsAux_mem rest b 1 Nat.one_pos p h with ⟨h2, h3⟩
        refine ⟨h2, Or.inr ?_⟩
        rcases h3 with h3 | h3
        · exact h3 ▸ List.mem_cons_self b rest
        · exact List.mem_cons_of_mem b h3

theorem runs_mem {rs : List WriteRequest} {p : Nat × Nat} (h : p ∈ runs rs) :
    0 < p.2 ∧ requested rs p.1 = true := by
  unfold runs at h
  rcases hf : (List.range (maxAddr rs)).filter (fun a => requested rs a) with _ | ⟨a, rest⟩
  · rw [hf] at h; cases h
  · rw [hf] at h
    rcases groupRunsAux_mem rest a 1 Nat.one_pos p h with ⟨h2, h3⟩
    refine ⟨h2, ?_⟩
    have hmem : p.1 ∈ (List.range (maxAddr rs)).filter (fun a => requested rs a) := by
      rw [hf]
      rcases h3 with h3 | h3
      · exact h3 ▸ List.mem_cons_self a rest
      · exact List.mem_cons_of_mem a h3
    exact (List.mem_filter.mp hmem).2

theorem no_run_outside {rs : List WriteRequest} {mm : List Region}
    (hflash : ∀ a, requested rs a = true → inFlash mm a = true) :
    (runs rs).find? (fun run => runOutside mm run) = none := by
  rw [List.find?_eq_none]
  intro run hrun
  rcases runs_mem hrun with ⟨hlen, hreq⟩
  intro hout
  have h0 : (! inFlash mm (run.1 + 0)) = true :=
    List.all_eq_true.mp hout 0 (List.mem_range.mpr hlen)
  rw [Nat.add_zero, hflash run.1 hreq] at h0
  cases h0

/-- If the recorded requests never conflict and every requested address lies
in a Flash region, `build` succeeds with the canonical sector plan. -/
theorem build_eq_ok {algo : FlashAlgorithm} {mm : List Region}
    {st : List WriteRequest}
    (hnc : ∀ a, ¬ twoDiffer st a)
    (hflash : ∀ a, requested st a = true → inFlash mm a = true) :
    build algo mm st = .ok (buildSectors algo (canon st)) := by
  have hnc' : findConflict (canon st) = none :=
    findConflict_eq_none_iff.mpr (fun a hd => hnc a ((twoDiffer_canon_iff st a).mp hd))
  have hflash' : ∀ a, requested (canon st) a = true → inFlash mm a = true := by
    intro a h; exact hflash a (by rwa [requested_canon] at h)
  unfold build
  rw [hnc', no_run_outside hflash']

/-! ## Flash Builder: ordering of the emitted plan -/

theorem buildSectors_sorted (algo : FlashAlgorithm) (rs : List WriteRequest) :
    (buildSectors algo rs).Pairwise (fun s1 s2 => s1.address < s2.address) := by
  rcases Nat.eq_zero_or_pos algo.sector_size with hS | hS
  · have h0 : numSectors rs algo.sector_size = 0 := by simp [numSectors, hS]
    simp [buildSectors, h0]
  · unfold buildSectors
    apply List.Pairwise.map
    · intro x y hxy
      exact Nat.mul_lt_mul_of_pos_right hxy hS
    · exact (List.pairwise_lt_range _).filter _

/-- Claim C2: for a fixed multiset of `add_data` requests and a fixed
algorithm geometry, any two permutations of the request sequence make
`build()` return the same result, and a successful result enumerates its
sectors in ascending address order. -/
theorem build_order_independent (algo : FlashAlgorithm) (mm : List Region)
    (st st' : List WriteRequest) (h : st.Perm st') :
    build algo mm st = build algo mm st' ∧
    ∀ secs, build algo mm st = Except.ok secs →
      secs.Pairwise (fun s1 s2 => s1.address < s2.address) := by
  constructor
  · unfold build; rw [canon_eq_of_perm h]
  · intro secs hok
    unfold build at hok
    split at hok
    · exact Except.noConfusion hok
    · split at hok
      · exact Except.noConfusion hok
      · exact Except.ok.inj hok ▸ buildSectors_sorted algo (canon st)

/-! ## Flash Builder: payload correctness -/

/-- The byte an emitted page programs at absolute address `a`, if covered. -/
def pageByte (p : FlashPage) (a : Nat) : Option Nat :=
  if decide (p.address ≤ a) && decide (a < p.address + p.payload.length)
  then p.payload[a - p.address]? else none

/-- The byte the whole emitted plan programs at absolute address `a`. -/
def planByte (secs : List FlashSector) (a : Nat) : Option Nat :=
  secs.findSome? (fun s => s.pages.findSome? (fun p => pageByte p a))

/-- The recorded requests touch pairwise disjoint address ranges. -/
def pairwiseDisjoint (rs : List WriteRequest) : Prop :=
  rs.Pairwise (fun r1 r2 => ∀ a, covers r1 a = false ∨ covers r2 a = false)

theorem findSome?_eq_some_unique {α β : Type _} {f : α → Option β} :
    ∀ (l : List α) (x : α) (b : β), x ∈ l → f x = some b →
      (∀ y ∈ l, f y = none ∨ y = x) → l.findSome? f = some b
  | [] => by intro x b hx _ _; cases hx
  | z :: tl => by
    intro x b hx hb huniq
    rcases hz : f z with _ | c
    · have hx' : x ∈ tl := by
        rcases List.mem_cons.mp hx with h | h
        · subst h; rw [hb] at hz; cases hz
        · exact h
      simp only [List.findSome?_cons, hz]
      exact findSome?_eq_some_unique tl x b hx' hb
        (fun y hy => huniq y (List.mem_cons_of_mem z hy))
    · have hcb : c = b := by
        rcases huniq z (List.mem_cons_self z tl) with h | h
        · rw [h] at hz; cases hz
        · subst h; rw [hb] at hz; injection hz with h2; exact h2.symm
      simp only [List.findSome?_cons, hz, hcb]

theorem disjoint_unique_cover {rs : List WriteRequest} (hdisj : pairwiseDisjoint rs)
    {r : WriteRequest} {a : Nat} (hr : r ∈ rs) (hc : covers r a = true) :
    ∀ y ∈ rs, y ≠ r → covers y a = false := by
  intro y hy hne
  have hsym : Symmetric
      (fun r1 r2 : WriteRequest => ∀ a, covers r1 a = false ∨ covers r2 a = false) :=
    fun p q hpq a2 => (hpq a2).symm
  rcases (hdisj.forall hsym) hy hr hne a with h | h
  · exact h
  · rw [hc] at h; cases h

theorem pairwiseDisjoint_no_conflict {st : List WriteRequest}
    (hdisj : pairwiseDisjoint st) : ∀ a, ¬ twoDiffer st a := by
  rintro a ⟨r1, h1, r2, h2, hne, hn1, hn2⟩
  by_cases he : r1 = r2
  · subst he; exact hne rfl
  · rcases Option.ne_none_iff_exists'.mp hn1 with ⟨b1, hb1⟩
    have hc2 : covers r2 a = false :=
      disjoint_unique_cover hdisj h1 (covers_of_byteAt hb1) r2 h2 (Ne.symm he)
    exact hn2 (byteAt_eq_none hc2)

theorem pairwiseDisjoint_canon {st : List WriteRequest}
    (h : pairwiseDisjoint st) : pairwiseDisjoint (canon st) :=
  ((canon_perm st).pairwise_iff (fun hxy a => (hxy a).symm)).mpr h

theorem byteOrFill_eq_byte {rs : List WriteRequest} (hdisj : pairwiseDisjoint rs)
    {r : WriteRequest} {a b fill : Nat} (hr : r ∈ rs) (hb : byteAt r a = some b) :
    byteOrFill rs fill a = b := by
  have huniq : ∀ y ∈ rs, byteAt y a = none ∨ y = r := by
    intro y hy
    by_cases he : y = r
    · exact Or.inr he
    · exact Or.inl (byteAt_eq_none
        (disjoint_unique_cover hdisj hr (covers_of_byteAt hb) y hy he))
  unfold byteOrFill
  rw [findSome?_eq_some_unique rs r b hr hb huniq]

theorem byteOrFill_eq_fill {rs : List WriteRequest} {a fill : Nat}
    (h : requested rs a = false) : byteOrFill rs fill a = fill := by
  have hn : rs.findSome? (fun r => byteAt r a) = none := by
    rw [List.findSome?_eq_none_iff]
    intro r hr
    apply byteAt_eq_none
    cases hcov : covers r a
    · rfl
    · rw [requested_iff.mpr ⟨r, hr, hcov⟩] at h; cases h
  unfold byteOrFill
  rw [hn]

theorem pagePayload_length (rs : List WriteRequest) (fill pageSize addr : Nat) :
    (pagePayload rs fill pageSize addr).length = pageSize := by
  simp [pagePayload]

theorem pagePayload_getElem? {rs : List WriteRequest} {fill pageSize addr i : Nat}
    (h : i < pageSize) :
    (pagePayload rs fill pageSize addr)[i]? = some (byteOrFill rs fill (addr + i)) := by
  unfold pagePayload
  rw [List.getElem?_map, List.getElem?_range h]
  rfl

theorem pageByte_payload {rs : List WriteRequest} {fill P A a : Nat}
    (h1 : A ≤ a) (h2 : a < A + P) :
    pageByte ⟨A, pagePayload rs fill P A⟩ a = some (byteOrFill rs fill a) := by
  have hlen : (pagePayload rs fill P A).length = P := pagePayload_length rs fill P A
  have hi : a - A < P := by omega
  unfold pageByte
  simp only [hlen]
  rw [if_pos (by simp; omega)]
  rw [pagePayload_getElem? hi, Nat.add_sub_cancel' h1]

theorem pageByte_none {p : FlashPage} {a : Nat}
    (h : a < p.address ∨ p.address + p.payload.length ≤ a) :
    pageByte p a = none := by
  have hc : (decide (p.address ≤ a) && decide (a < p.address + p.payload.length))
      = false := by
    simp; omega
  unfold pageByte
  simp [hc]

theorem sectorPages_mem_shape {algo : FlashAlgorithm} {rs : List WriteRequest}
    {base : Nat} {q : FlashPage} (hq : q ∈ sectorPages rs algo base) :
    ∃ j, j < algo.sector_size / algo.page_size ∧
      pageTouched rs algo.page_size (base + j * algo.page_size) = true ∧
      q = ⟨base + j * algo.page_size,
        pagePayload rs algo.erased_byte algo.page_size (base + j * algo.page_size)⟩ := by
  rcases List.mem_map.mp hq with ⟨j, hjf, hje⟩
  rcases List.mem_filter.mp hjf with ⟨hjr, hjt⟩
  exact ⟨j, List.mem_range.mp hjr, hjt, hje.symm⟩

theorem buildSectors_mem_shape {algo : FlashAlgorithm} {rs : List WriteRequest}
    {s : FlashSector} (hs : s ∈ buildSectors algo rs) :
    ∃ u, u < numSectors rs algo.sector_size ∧
      sectorTouched rs algo.sector_size u = true ∧
      s = ⟨u * algo.sector_size, sectorPages rs algo (u * algo.sector_size)⟩ := by
  rcases List.mem_map.mp hs with ⟨u, huf, hue⟩
  rcases List.mem_filter.mp huf with ⟨hur, hut⟩
  exact ⟨u, List.mem_range.mp hur, hut, hue.symm⟩

theorem sectorPages_findSome?_none {algo : FlashAlgorithm} {rs : List WriteRequest}
    (hdvd : algo.page_size ∣ algo.sector_size) {base a : Nat}
    (hout : a < base ∨ base + algo.sector_size ≤ a) :
    (sectorPages rs algo base).findSome? (fun p => pageByte p a) = none := by
  rw [List.findSome?_eq_none_iff]
  intro q hq
  rcases sectorPages_mem_shape hq with ⟨j, hj, _, hqe⟩
  subst hqe
  have hjP : (j + 1) * algo.page_size ≤ algo.sector_size := by
    calc (j + 1) * algo.page_size
        ≤ algo.sector_size / algo.page_size * algo.page_size :=
          Nat.mul_le_mul_right _ hj
      _ = algo.sector_size := Nat.div_mul_cancel hdvd
  have hsm : (j + 1) * algo.page_size = j * algo.page_size + algo.page_size :=
    Nat.succ_mul _ _
  apply pageByte_none
  simp only [pagePayload_length]
  omega

theorem sectorPages_findSome?_covering {algo : FlashAlgorithm}
    {rs : List WriteRequest} (hP : 0 < algo.page_size)
    (hdvd : algo.page_size ∣ algo.sector_size)
    {u a : Nat} (hlo : u * algo.sector_size ≤ a)
    (hhi : a < u * algo.sector_size + algo.sector_size)
    (hreq : requested rs a = true) :
    (sectorPages rs algo (u * algo.sector_size)).findSome? (fun p => pageByte p a)
      = some (byteOrFill rs algo.erased_byte a) := by
  have hoffS : a - u * algo.sector_size < algo.sector_size := by omega
  have hjlt : (a - u * algo.sector_size) / algo.page_size
      < algo.sector_size / algo.page_size :=
    Nat.div_lt_div_of_lt_of_dvd hdvd hoffS
  have hjP1 : (a - u * algo.sector_size) / algo.page_size * algo.page_size
      ≤ a - u * algo.sector_size := Nat.div_mul_le_self _ _
  have hjP2 : a - u * algo.sector_size
      < (a - u * algo.sector_size) / algo.page_size * algo.page_size
        + algo.page_size := by
    have hdm := Nat.div_add_mod (a - u * algo.sector_size) algo.page_size
    have hml := Nat.mod_lt (a - u * algo.sector_size) hP
    have hcomm : algo.page_size * ((a - u * algo.sector_size) / algo.page_size)
        = (a - u * algo.sector_size) / algo.page_size * algo.page_size :=
      Nat.mul_comm _ _
    omega
  have hA1 : u * algo.sector_size
      + (a - u * algo.sector_size) / algo.page_size * algo.page_size ≤ a := by
    omega
  have hA2 : a < u * algo.sector_size
      + (a - u * algo.sector_size) / algo.page_size * algo.page_size
      + algo.page_size := by
    omega
  have htouch : pageTouched rs algo.page_size
      (u * algo.sector_size
        + (a - u * algo.sector_size) / algo.page_size * algo.page_size) = true := by
    apply List.any_eq_true.mpr
    refine ⟨a - (u * algo.sector_size
      + (a - u * algo.sector_size) / algo.page_size * algo.page_size),
      List.mem_range.mpr (by omega), ?_⟩
    have he : u * algo.sector_size
        + (a - u * algo.sector_size) / algo.page_size * algo.page_size
        + (a - (u * algo.sector_size
          + (a - u * algo.sector_size) / algo.page_size * algo.page_size)) = a := by
      omega
    rw [he, hreq]
  have hpgmem : (⟨u * algo.sector_size
        + (a - u * algo.sector_size) / algo.page_size * algo.page_size,
      pagePayload rs algo.erased_byte algo.page_size
        (u * algo.sector_size
          + (a - u * algo.sector_size) / algo.page_size * algo.page_size)⟩
      : FlashPage) ∈ sectorPages rs algo (u * algo.sector_size) := by
    apply List.mem_map.mpr
    exact ⟨(a - u * algo.sector_size) / algo.page_size,
      List.mem_filter.mpr ⟨List.mem_range.mpr hjlt, htouch⟩, rfl⟩
  have hpgval := @pageByte_payload rs algo.erased_byte algo.page_size _ _ hA1 hA2
  apply findSome?_eq_some_unique _ _ _ hpgmem hpgval
  intro q hq
  rcases sectorPages_mem_shape hq with ⟨j2, hj2, _, hqe⟩
  by_cases hje : j2 = (a - u * algo.sector_size) / algo.page_size
  · subst hje; exact Or.inr hqe
  · left
    subst hqe
    apply pageByte_none
    simp only [pagePayload_length]
    rcases Nat.lt_or_ge j2 ((a - u * algo.sector_size) / algo.page_size)
      with hlt | hge
    · right
      have hle : (j2 + 1) * algo.page_size
          ≤ (a - u * algo.sector_size) / algo.page_size * algo.page_size :=
        Nat.mul_le_mul_right _ hlt
      have hs1 : (j2 + 1) * algo.page_size = j2 * algo.page_size + algo.page_size :=
        Nat.succ_mul _ _
      omega
    · left
      have hgt : (a - u * algo.sector_size) / algo.page_size < j2 :=
        Nat.lt_of_le_of_ne hge (fun he => hje he.symm)
      have hle : ((a - u * algo.sector_size) / algo.page_size + 1) * algo.page_size
          ≤ j2 * algo.page_size := Nat.mul_le_mul_right _ hgt
      have hs2 : ((a - u * algo.sector_size) / algo.page_size + 1) * algo.page_size
          = (a - u * algo.sector_size) / algo.page_size * algo.page_size
            + algo.page_size := Nat.succ_mul _ _
      omega

theorem planByte_buildSectors {algo : FlashAlgorithm} {rs : List WriteRequest}
    (hP : 0 < algo.page_size) (hS : 0 < algo.sector_size)
    (hdvd : algo.page_size ∣ algo.sector_size)
    {a : Nat} (hreq : requested rs a = true) :
    planByte (buildSectors algo rs) a = some (byteOrFill rs algo.erased_byte a) := by
  have hmax : a < maxAddr rs := requested_lt_maxAddr hreq
  have hu1 : a / algo.sector_size * algo.sector_size ≤ a := Nat.div_mul_le_self a _
  have hu2 : a < a / algo.sector_size * algo.sector_size + algo.sector_size := by
    have h1 : a % algo.sector_size < algo.sector_size := Nat.mod_lt a hS
    have h2 : algo.sector_size * (a / algo.sector_size) + a % algo.sector_size = a :=
      Nat.div_add_mod a algo.sector_size
    have hcomm : algo.sector_size * (a / algo.sector_size)
        = a / algo.sector_size * algo.sector_size := Nat.mul_comm _ _
    omega
  have hun : a / algo.sector_size < numSectors rs algo.sector_size := by
    rw [numSectors]
    have hstep : a / algo.sector_size + 1
        ≤ (maxAddr rs + algo.sector_size - 1) / algo.sector_size := by
      rw [Nat.le_div_iff_mul_le hS]
      have hsm : (a / algo.sector_size + 1) * algo.sector_size
          = a / algo.sector_size * algo.sector_size + algo.sector_size :=
        Nat.succ_mul _ _
      omega
    omega
  have htouch : sectorTouched rs algo.sector_size (a / algo.sector_size) = true := by
    apply List.any_eq_true.mpr
    refine ⟨a - a / algo.sector_size * algo.sector_size,
      List.mem_range.mpr (by omega), ?_⟩
    have he : a / algo.sector_size * algo.sector_size
        + (a - a / algo.sector_size * algo.sector_size) = a := by omega
    rw [he, hreq]
  have hsecmem : (⟨a / algo.sector_size * algo.sector_size,
      sectorPages rs algo (a / algo.sector_size * algo.sector_size)⟩
      : FlashSector) ∈ buildSectors algo rs := by
    apply List.mem_map.mpr
    exact ⟨a / algo.sector_size,
      List.mem_filter.mpr ⟨List.mem_range.mpr hun, htouch⟩, rfl⟩
  have hsecval : (sectorPages rs algo
        (a / algo.sector_size * algo.sector_size)).findSome?
        (fun p => pageByte p a)
      = some (byteOrFill rs algo.erased_byte a) :=
    sectorPages_findSome?_covering hP hdvd hu1 hu2 hreq
  apply findSome?_eq_some_unique _ _ _ hsecmem hsecval
  intro t ht
  rcases buildSectors_mem_shape ht with ⟨v, hv, _, hte⟩
  by_cases hve : v = a / algo.sector_size
  · subst hve; exact Or.inr hte
  · left
    subst hte
    apply sectorPages_findSome?_none hdvd
    rcases Nat.lt_or_ge v (a / algo.sector_size) with hlt | hge
    · right
      have hle : (v + 1) * algo.sector_size
          ≤ a / algo.sector_size * algo.sector_size := Nat.mul_le_mul_right _ hlt
      have hs1 : (v + 1) * algo.sector_size
          = v * algo.sector_size + algo.sector_size := Nat.succ_mul _ _
      omega
    · left
      have hgt : a / algo.sector_size < v :=
        Nat.lt_of_le_of_ne hge (fun he => hve he.symm)
      have hle : (a / algo.sector_size + 1) * algo.sector_size
          ≤ v * algo.sector_size := Nat.mul_le_mul_right _ hgt
      have hs2 : (a / algo.sector_size + 1) * algo.sector_size
          = a / algo.sector_size * algo.sector_size + algo.sector_size :=
        Nat.succ_mul _ _
      omega

theorem buildSectors_pad {algo : FlashAlgorithm} {rs : List WriteRequest} :
    ∀ s ∈ buildSectors algo rs, ∀ p ∈ s.pages, ∀ i, i < p.payload.length →
      requested rs (p.address + i) = false → p.payload[i]? = some algo.erased_byte := by
  intro s hs p hp i hi hreq
  rcases buildSectors_mem_shape hs with ⟨u, _, _, hse⟩
  subst hse
  rcases sectorPages_mem_shape hp with ⟨j, _, _, hpe⟩
  subst hpe
  dsimp only at hi hreq ⊢
  rw [pagePayload_length] at hi
  rw [pagePayload_getElem? hi, byteOrFill_eq_fill hreq]

/-! ## Builder claims C3 and C6 -/

/-- Claim C3: `add_data` never fails and always records its request; a
content-conflicting overlap fails at `build()` time with
`ConflictingData` at a genuinely conflicting address, while byte-identical
overlaps never produce a `ConflictingData` failure (and, inside the memory
map, build succeeds). -/
theorem builder_conflict_semantics (algo : FlashAlgorithm) (mm : List Region)
    (st : List WriteRequest) :
    (∀ st2 a bs, (add_data st2 a bs).length = st2.length + 1) ∧
    ((∀ a, requested st a = true → inFlash mm a = true) →
      ((∃ secs, build algo mm st = Except.ok secs) ↔ ∀ a, ¬ twoDiffer st a)) ∧
    (∀ a, build algo mm st = Except.error (BuildError.ConflictingData a) →
      twoDiffer st a) ∧
    ((∃ a, twoDiffer st a) →
      ∃ a, build algo mm st = Except.error (BuildError.ConflictingData a)) := by
  refine ⟨?_, ?_, ?_, ?_⟩
  · intro st2 a bs; simp [add_data]
  · intro hfl
    constructor
    · rintro ⟨secs, hok⟩ a hd
      unfold build at hok
      rcases hfc : findConflict (canon st) with _ | a2
      · rw [findConflict_eq_none_iff] at hfc
        exact hfc a ((twoDiffer_canon_iff st a).mpr hd)
      · rw [hfc] at hok; exact Except.noConfusion hok
    · intro hnc
      exact ⟨_, build_eq_ok hnc hfl⟩
  · intro a herr
    unfold build at herr
    rcases hfc : findConflict (canon st) with _ | a2
    · rw [hfc] at herr
      rcases hfr : (runs (canon st)).find? (fun run => runOutside mm run) with _ | run
      · rw [hfr] at herr
        exact Except.noConfusion herr
      · rw [hfr] at herr
        exact BuildError.noConfusion (Except.error.inj herr)
    · rw [hfc] at herr
      have h2 := Except.error.inj herr
      have ha : a2 = a := BuildError.ConflictingData.inj h2
      exact (twoDiffer_canon_iff st a).mp (ha ▸ findConflict_some hfc)
  · rintro ⟨a, hd⟩
    have hne : findConflict (canon st) ≠ none := fun h =>
      (findConflict_eq_none_iff.mp h) a ((twoDiffer_canon_iff st a).mpr hd)
    rcases hfc : findConflict (canon st) with _ | a2
    · exact absurd hfc hne
    · refine ⟨a2, ?_⟩
      unfold build
      rw [hfc]

/-- A tiny algorithm geometry for concrete instances: 4-byte pages, one
8-byte sector, erase-fill byte 255. -/
def tinyAlgo : FlashAlgorithm := ⟨[1, 2], 0, ⟨none, none, 4, 8, none⟩, 4, 8, 64, 255⟩

/-- A tiny memory map for concrete instances: one Flash region [0, 64). -/
def tinyMM : List Region := [⟨0, 64, true⟩]

/-- Concrete check of C3: a byte-identical overlap builds, a differing
overlap reports `ConflictingData`. -/
theorem builder_conflict_semantics_witness :
    (∃ secs, build tinyAlgo tinyMM [⟨0, [7, 8]⟩, ⟨1, [8, 9]⟩] = Except.ok secs) ∧
    (∃ a, build tinyAlgo tinyMM [⟨0, [7, 8]⟩, ⟨1, [5, 9]⟩]
      = Except.error (BuildError.ConflictingData a)) := by
  constructor
  · apply ((builder_conflict_semantics tinyAlgo tinyMM _).2.1 ?_).mpr ?_
    · intro a h
      have h3 : maxAddr [(⟨0, [7, 8]⟩ : WriteRequest), ⟨1, [8, 9]⟩] = 3 := by decide
      have hlt := requested_lt_maxAddr h
      rw [h3] at hlt
      simp [inFlash, tinyMM]
      omega
    · intro a hd
      have h3 : maxAddr [(⟨0, [7, 8]⟩ : WriteRequest), ⟨1, [8, 9]⟩] = 3 := by decide
      have hlt := twoDiffer_lt_maxAddr hd
      rw [h3] at hlt
      interval_cases a <;> exact absurd hd (by decide)
  · exact (builder_conflict_semantics tinyAlgo tinyMM _).2.2.2 ⟨1, by decide⟩

theorem covers_eq_true_iff {r : WriteRequest} {a : Nat} :
    covers r a = true ↔ r.address ≤ a ∧ a < r.address + r.bytes.length := by
  rw [covers, Bool.and_eq_true, decide_eq_true_eq, decide_eq_true_eq]

/-- Concrete C6 geometry: page size = sector size = 4096, erase-fill 255. -/
def scenAlgo : FlashAlgorithm :=
  ⟨[1], 536870912, ⟨none, none, 8, 4, none⟩, 4096, 4096, 536875008, 255⟩

/-- Concrete C6 memory map: one Flash region [0, 0x20000). -/
def scenMM : List Region := [⟨0, 131072, true⟩]

/-- C6 scenario request 1: 1500 bytes at address 0x0000. -/
def scenR1 : WriteRequest := ⟨0, List.replicate 1500 171⟩

/-- C6 scenario request 2: 4096 bytes at address 0x1000. -/
def scenR2 : WriteRequest := ⟨4096, List.replicate 4096 205⟩

/-- The C6 scenario requests as recorded through `add_data`. -/
def scenReqs : List WriteRequest :=
  add_data (add_data [] 0 (List.replicate 1500 171)) 4096 (List.replicate 4096 205)

/-- The C6 scenario requests as a plain (already canonical) list. -/
def scenList : List WriteRequest := [scenR1, scenR2]

theorem scenR1_addr : scenR1.address = 0 := rfl

theorem scenR1_len : scenR1.bytes.length = 1500 := List.length_replicate 1500 171

theorem scenR2_addr : scenR2.address = 4096 := rfl

theorem scenR2_len : scenR2.bytes.length = 4096 := List.length_replicate 4096 205

theorem filter_map_single {α β : Type _} (p : α → Bool) (f : α → β) {a : α}
    (ha : p a = true) : (List.filter p [a]).map f = [f a] := by
  rw [List.filter_cons_of_pos ha, List.filter_nil, List.map_cons, List.map_nil]

theorem filter_map_pair {α β : Type _} (p : α → Bool) (f : α → β) {a b : α}
    (ha : p a = true) (hb : p b = true) :
    (List.filter p [a, b]).map f = [f a, f b] := by
  rw [List.filter_cons_of_pos ha, List.filter_cons_of_pos hb, List.filter_nil,
    List.map_cons, List.map_cons, List.map_nil]

theorem scen_requested_zero : requested scenList 0 = true := by
  apply requested_iff.mpr
  refine ⟨scenR1, List.mem_cons_self _ _, ?_⟩
  rw [covers_eq_true_iff, scenR1_addr, scenR1_len]
  omega

theorem scen_requested_page1 : requested scenList 4096 = true := by
  apply requested_iff.mpr
  refine ⟨scenR2, List.mem_cons_of_mem _ (List.mem_cons_self _ _), ?_⟩
  rw [covers_eq_true_iff, scenR2_addr, scenR2_len]
  omega

theorem scen_requested_gap {i : Nat} (h15 : 1500 ≤ i) (h40 : i < 4096) :
    requested scenList i = false := by
  rw [Bool.eq_false_iff]
  intro hq
  rcases requested_iff.mp hq with ⟨r, hr, hc⟩
  rw [covers_eq_true_iff] at hc
  rcases List.mem_cons.mp hr with h | h
  · subst h
    rw [scenR1_addr, scenR1_len] at hc
    omega
  · rw [List.mem_singleton] at h
    subst h
    rw [scenR2_addr, scenR2_len] at hc
    omega

theorem scen_maxAddr : maxAddr scenList = 8192 := by
  simp only [maxAddr, scenList, List.foldr_cons, List.foldr_nil]
  rw [scenR1_addr, scenR1_len, scenR2_addr, scenR2_len]
  rfl

theorem scen_disjoint : pairwiseDisjoint scenList := by
  unfold pairwiseDisjoint scenList
  rw [List.pairwise_cons]
  refine ⟨?_, List.pairwise_singleton _ _⟩
  intro y hy a
  rw [List.mem_singleton] at hy
  subst hy
  by_cases h : a < 1500
  · right
    rw [Bool.eq_false_iff]
    intro hc
    rw [covers_eq_true_iff, scenR2_addr, scenR2_len] at hc
    omega
  · left
    rw [Bool.eq_false_iff]
    intro hc
    rw [covers_eq_true_iff, scenR1_addr, scenR1_len] at hc
    omega

/-- Claim C6: for pairwise non-overlapping requests inside Flash regions,
`build()`'s pages contain exactly the requested bytes at their addresses and
erase-fill everywhere else inside an emitted page; concretely, the 1500-byte
and 4096-byte request pair with sector size 4096 yields exactly two sectors
and sector 0's page payload beyond offset 1500 equals the fill byte. -/
theorem build_payload_exact :
    (∀ (algo : FlashAlgorithm) (mm : List Region) (st : List WriteRequest),
      0 < algo.page_size → 0 < algo.sector_size →
      algo.page_size ∣ algo.sector_size → pairwiseDisjoint st →
      (∀ a, requested st a = true → inFlash mm a = true) →
      ∃ secs, build algo mm st = Except.ok secs ∧
        (∀ r ∈ st, ∀ a b, byteAt r a = some b → planByte secs a = some b) ∧
        (∀ s ∈ secs, ∀ p ∈ s.pages, ∀ i, i < p.payload.length →
          requested st (p.address + i) = false →
          p.payload[i]? = some algo.erased_byte)) ∧
    (∃ pay0 pay1,
      build scenAlgo scenMM scenReqs =
        Except.ok [⟨0, [⟨0, pay0⟩]⟩, ⟨4096, [⟨4096, pay1⟩]⟩] ∧
      ∀ i, 1500 ≤ i → i < 4096 → pay0[i]? = some 255) := by
  constructor
  · intro algo mm st hP hS hdvd hdisj hfl
    refine ⟨buildSectors algo (canon st),
      build_eq_ok (pairwiseDisjoint_no_conflict hdisj) hfl, ?_, ?_⟩
    · intro r hr a b hb
      have hreq : requested (canon st) a = true := by
        rw [requested_canon]
        exact requested_iff.mpr ⟨r, hr, covers_of_byteAt hb⟩
      rw [planByte_buildSectors hP hS hdvd hreq]
      have hdisj' := pairwiseDisjoint_canon hdisj
      have hr' : r ∈ canon st := (canon_perm st).mem_iff.mpr hr
      rw [byteOrFill_eq_byte hdisj' hr' hb]
    · intro s hs p hp i hi hreqf
      apply buildSectors_pad s hs p hp i hi
      rw [requested_canon]
      exact hreqf
  · have hfl : ∀ a, requested scenReqs a = true → inFlash scenMM a = true := by
      intro a h
      have hlt := requested_lt_maxAddr h
      rw [show scenReqs = scenList from rfl, scen_maxAddr] at hlt
      apply List.any_eq_true.mpr
      refine ⟨⟨0, 131072, true⟩, List.mem_cons_self _ _, ?_⟩
      rw [Bool.and_eq_true, Bool.and_eq_true]
      refine ⟨⟨rfl, ?_⟩, ?_⟩
      · rw [decide_eq_true_eq]
        exact Nat.zero_le a
      · rw [decide_eq_true_eq]
        show a < 0 + 131072
        omega
    have hdisj : pairwiseDisjoint scenReqs := scen_disjoint
    have hok : build scenAlgo scenMM scenReqs
        = Except.ok (buildSectors scenAlgo (canon scenReqs)) :=
      build_eq_ok (pairwiseDisjoint_no_conflict hdisj) hfl
    have hcanon : canon scenReqs = scenList := rfl
    have htouch0 : sectorTouched scenList scenAlgo.sector_size 0 = true := by
      apply List.any_eq_true.mpr
      exact ⟨0, List.mem_range.mpr (by decide), scen_requested_zero⟩
    have htouch1 : sectorTouched scenList scenAlgo.sector_size 1 = true := by
      apply List.any_eq_true.mpr
      exact ⟨0, List.mem_range.mpr (by decide), scen_requested_page1⟩
    have hpt0 : pageTouched scenList scenAlgo.page_size
        (0 * scenAlgo.sector_size + 0 * scenAlgo.page_size) = true := by
      apply List.any_eq_true.mpr
      exact ⟨0, List.mem_range.mpr (by decide), scen_requested_zero⟩
    have hpt1 : pageTouched scenList scenAlgo.page_size
        (1 * scenAlgo.sector_size + 0 * scenAlgo.page_size) = true := by
      apply List.any_eq_true.mpr
      exact ⟨0, List.mem_range.mpr (by decide), scen_requested_page1⟩
    have hsp : ∀ s : Nat,
        pageTouched scenList scenAlgo.page_size
          (s * scenAlgo.sector_size + 0 * scenAlgo.page_size) = true →
        sectorPages scenList scenAlgo (s * scenAlgo.sector_size) =
          [⟨s * scenAlgo.sector_size + 0 * scenAlgo.page_size,
            pagePayload scenList scenAlgo.erased_byte scenAlgo.page_size
              (s * scenAlgo.sector_size + 0 * scenAlgo.page_size)⟩] := by
      intro s hpt
      unfold sectorPages
      rw [show List.range (scenAlgo.sector_size / scenAlgo.page_size) = [0] from rfl]
      exact filter_map_single
        (fun p => pageTouched scenList scenAlgo.page_size
          (s * scenAlgo.sector_size + p * scenAlgo.page_size))
        (fun p => (⟨s * scenAlgo.sector_size + p * scenAlgo.page_size,
          pagePayload scenList scenAlgo.erased_byte scenAlgo.page_size
            (s * scenAlgo.sector_size + p * scenAlgo.page_size)⟩ : FlashPage))
        hpt
    have hnum : numSectors scenList scenAlgo.sector_size = 2 := by
      unfold numSectors
      rw [scen_maxAddr, show scenAlgo.sector_size = 4096 from rfl]
    have hbs : buildSectors scenAlgo scenList =
        [⟨0 * scenAlgo.sector_size,
          sectorPages scenList scenAlgo (0 * scenAlgo.sector_size)⟩,
         ⟨1 * scenAlgo.sector_size,
          sectorPages scenList scenAlgo (1 * scenAlgo.sector_size)⟩] := by
      unfold buildSectors
      rw [hnum]
      rw [show List.range 2 = [0, 1] from rfl]
      exact filter_map_pair
        (fun s => sectorTouched scenList scenAlgo.sector_size s)
        (fun s => (⟨s * scenAlgo.sector_size,
          sectorPages scenList scenAlgo (s * scenAlgo.sector_size)⟩ : FlashSector))
        htouch0 htouch1
    refine ⟨pagePayload scenList scenAlgo.erased_byte scenAlgo.page_size
        (0 * scenAlgo.sector_size + 0 * scenAlgo.page_size),
      pagePayload scenList scenAlgo.erased_byte scenAlgo.page_size
        (1 * scenAlgo.sector_size + 0 * scenAlgo.page_size), ?_, ?_⟩
    · rw [hok, hcanon, hbs, hsp 0 hpt0, hsp 1 hpt1]
      rfl
    · intro i h15 h40
      rw [pagePayload_getElem? (show i < scenAlgo.page_size from h40)]
      rw [show (0 : Nat) * scenAlgo.sector_size + 0 * scenAlgo.page_size = 0 from rfl]
      rw [Nat.zero_add]
      rw [byteOrFill_eq_fill (scen_requested_gap h15 h40)]
      rfl

/-- Concrete check of C2 at a two-request permutation pair. -/
theorem build_order_independent_witness :
    ([(⟨0, [1, 2]⟩ : WriteRequest), ⟨8, [3]⟩]).Perm [⟨8, [3]⟩, ⟨0, [1, 2]⟩] ∧
    build tinyAlgo tinyMM [⟨0, [1, 2]⟩, ⟨8, [3]⟩]
      = build tinyAlgo tinyMM [⟨8, [3]⟩, ⟨0, [1, 2]⟩] :=
  ⟨List.Perm.swap (⟨8, [3]⟩ : WriteRequest) ⟨0, [1, 2]⟩ [],
   (build_order_independent tinyAlgo tinyMM _ _
     (List.Perm.swap (⟨8, [3]⟩ : WriteRequest) ⟨0, [1, 2]⟩ [])).1⟩

/-- Concrete check of C6 at a one-request instance on the tiny geometry. -/
theorem build_payload_exact_witness :
    ∃ secs, build tinyAlgo tinyMM [⟨0, [9, 8]⟩] = Except.ok secs ∧
      (∀ r ∈ [(⟨0, [9, 8]⟩ : WriteRequest)], ∀ a b, byteAt r a = some b →
        planByte secs a = some b) ∧
      (∀ s ∈ secs, ∀ p ∈ s.pages, ∀ i, i < p.payload.length →
        requested [(⟨0, [9, 8]⟩ : WriteRequest)] (p.address + i) = false →
        p.payload[i]? = some tinyAlgo.erased_byte) :=
  build_payload_exact.1 tinyAlgo tinyMM [⟨0, [9, 8]⟩] (by decide) (by decide)
    ⟨2, rfl⟩
    (List.pairwise_singleton _ _)
    (by
      intro a h
      have h2 : maxAddr [(⟨0, [9, 8]⟩ : WriteRequest)] = 2 := by decide
      have hlt := requested_lt_maxAddr h
      rw [h2] at hlt
      apply List.any_eq_true.mpr
      refine ⟨⟨0, 64, true⟩, List.mem_cons_self _ _, ?_⟩
      rw [Bool.and_eq_true, Bool.and_eq_true]
      exact ⟨⟨rfl, by rw [decide_eq_true_eq]; exact Nat.zero_le a⟩,
        by rw [decide_eq_true_eq]; show a < 0 + 64; omega⟩)

/-! ## Flash Loader: plan execution (claims C1, C5) -/

/-- Modelled from the spec: the runtime `FlashError` taxonomy (§7): timeout,
algorithm-reported failure, verify mismatch, lost probe. -/
inductive FlashError
  | AlgorithmError (code address : Nat)
  | Timeout (address : Nat)
  | ProbeLost
  | VerifyFailed (address : Nat)
deriving DecidableEq, Repr

/-- Modelled from the spec: the erase/program calls the loader issues while
executing a `build()` plan (§4.4, steps 4 and 5). -/
inductive LoaderOp
  | eraseSector (address : Nat)
  | programPage (address : Nat)
deriving DecidableEq, Repr

/-- The flash address an operation acts on. -/
def opAddress : LoaderOp → Nat
  | .eraseSector a => a
  | .programPage a => a

/-- Modelled from the spec: how the target answers one `call_function`
invocation (§4.4, step 2): a function-status code read from register 0, a
lost probe, or no completion before the timeout. -/
inductive CallOutcome
  | status (code : Nat)
  | probeLost
  | timedOut
deriving DecidableEq, Repr

/-- Modelled from the spec (§4.4, §7): the error a call outcome surfaces as,
if any: a non-zero status is `AlgorithmError(code, address)`, no completion
is `Timeout(address)`, a lost probe is `ProbeLost`; status 0 is success. -/
def errorOf (op : LoaderOp) : CallOutcome → Option FlashError
  | .status 0 => none
  | .status (c + 1) => some (.AlgorithmError (c + 1) (opAddress op))
  | .probeLost => some .ProbeLost
  | .timedOut => some (.Timeout (opAddress op))

/-- Modelled from the spec: the loader's protocol states (§4.4). -/
inductive LoaderState
  | Idle
  | AlgorithmLoaded
  | Initialized
  | Erasing
  | Programming
  | Verifying
  | Done
  | Failed
deriving DecidableEq, Repr

/-- The observable outcome of one plan execution: the erase/program calls
issued in order, whether `uninit` was attempted, the final state, and the
reported error. -/
structure LoaderResult where
  trace : List LoaderOp
  uninitCalled : Bool
  state : LoaderState
  result : Option FlashError
deriving DecidableEq, Repr

/-- The erase/program call sequence of a `build()` plan: for each sector in
order, erase it, then program each of its pages (§4.4). -/
def planOps (plan : List FlashSector) : List LoaderOp :=
  plan.flatMap (fun s => LoaderOp.eraseSector s.address
    :: s.pages.map (fun p => LoaderOp.programPage p.address))

/-- Modelled from the spec: issue the calls in order against target
behaviour `tgt`, stopping at the first failed call (§4.4); returns the
issued calls and the first error, if any. -/
def runOps (tgt : LoaderOp → CallOutcome) :
    List LoaderOp → List LoaderOp × Option FlashError
  | [] => ([], none)
  | op :: rest =>
    match errorOf op (tgt op) with
    | none => (op :: (runOps tgt rest).1, (runOps tgt rest).2)
    | some e => ([op], some e)

/-- Modelled from the spec: execute a whole `build()` plan (§4.4): issue the
erase/program calls in order, abort at the first failure leaving the
remaining calls unissued, attempt `uninit` best-effort in both cases — its
own outcome `uo` never masks the original error — and finish in `Done` or
`Failed`. -/
def runPlan (tgt : LoaderOp → CallOutcome) (uo : CallOutcome)
    (plan : List FlashSector) : LoaderResult :=
  match runOps tgt (planOps plan) with
  | (tr, none) => ⟨tr, true, .Done, none⟩
  | (tr, some e) => ⟨tr, true, .Failed, some e⟩

theorem runOps_prefix_fail (tgt : LoaderOp → CallOutcome) :
    ∀ (pre : List LoaderOp) (op : LoaderOp) (post : List LoaderOp)
      (e : FlashError),
      (∀ o ∈ pre, tgt o = CallOutcome.status 0) →
      errorOf op (tgt op) = some e →
      runOps tgt (pre ++ op :: post) = (pre ++ [op], some e)
  | [], op, post, e => by
    intro _ hfail
    rw [List.nil_append]
    unfold runOps
    rw [hfail]
    rfl
  | o :: pre, op, post, e => by
    intro hpre hfail
    have ho : errorOf o (tgt o) = none := by
      rw [hpre o (List.mem_cons_self o pre)]
      rfl
    rw [List.cons_append]
    unfold runOps
    rw [ho]
    rw [runOps_prefix_fail tgt pre op post e
      (fun x hx => hpre x (List.mem_cons_of_mem o hx)) hfail]
    rfl

/-- Claim C1: when a call of the plan fails (probe error, timeout, or
non-zero status), the loader issues exactly the calls up to and including
the failing one — every later erase/program call is left unissued and
nothing is retried — reports the corresponding `FlashError`, still attempts
`uninit`, and ends `Failed`, whatever the uninit outcome is. -/
theorem loader_aborts_on_failure (tgt : LoaderOp → CallOutcome)
    (uo : CallOutcome) (plan : List FlashSector) (pre : List LoaderOp)
    (op : LoaderOp) (post : List LoaderOp) (e : FlashError)
    (hsplit : planOps plan = pre ++ op :: post)
    (hpre : ∀ o ∈ pre, tgt o = CallOutcome.status 0)
    (hfail : errorOf op (tgt op) = some e) :
    runPlan tgt uo plan = ⟨pre ++ [op], true, LoaderState.Failed, some e⟩ := by
  unfold runPlan
  rw [hsplit, runOps_prefix_fail tgt pre op post e hpre hfail]

/-- The C1 witness plan: two sectors of one page each. -/
def wPlan : List FlashSector :=
  [⟨0, [⟨0, [1, 2, 3, 4]⟩]⟩, ⟨8, [⟨8, [5, 6, 7, 8]⟩]⟩]

/-- The C1 witness target: reports status 1 when asked to program page 8,
status 0 otherwise. -/
def wTgt : LoaderOp → CallOutcome := fun op =>
  match op with
  | .programPage 8 => CallOutcome.status 1
  | _ => CallOutcome.status 0

/-- Concrete check of C1: status 1 while programming the second sector's
page stops the trace at that call, uninit is attempted, and the loader fails
with `AlgorithmError(1, 8)`. -/
theorem loader_aborts_on_failure_witness :
    runPlan wTgt CallOutcome.probeLost wPlan =
      ⟨[LoaderOp.eraseSector 0, LoaderOp.programPage 0, LoaderOp.eraseSector 8,
        LoaderOp.programPage 8], true, LoaderState.Failed,
        some (FlashError.AlgorithmError 1 8)⟩ :=
  loader_aborts_on_failure wTgt CallOutcome.probeLost wPlan
    [LoaderOp.eraseSector 0, LoaderOp.programPage 0, LoaderOp.eraseSector 8]
    (LoaderOp.programPage 8) [] (FlashError.AlgorithmError 1 8)
    rfl (by decide) rfl

/-- The observable outcome of one `call_function` invocation: how many polls
were made and the call's result. -/
structure CallFnResult where
  polls : Nat
  result : Except FlashError Nat

/-- Modelled from the spec: `call_function` (§4.4, step 2): poll
`is_running()` — `running i` answers the i-th poll — at a bounded interval
up to `maxPolls` polls; on completion read register 0 (`reg0`) as the
status code; if the target never stops before the timeout, surface
`FlashError.Timeout` at the call's address. -/
def callFunction (running : Nat → Bool) (maxPolls : Nat) (reg0 : Nat)
    (address : Nat) : CallFnResult :=
  match (List.range maxPolls).find? (fun i => ! running i) with
  | some i => ⟨i + 1, .ok reg0⟩
  | none => ⟨maxPolls, .error (.Timeout address)⟩

/-- Claim C5: `call_function` performs at most `maxPolls` polls, and when
the target never reports completion it surfaces `FlashError.Timeout` at the
call's address after exactly the configured number of polls instead of
polling forever. -/
theorem call_function_timeout_bounded (running : Nat → Bool)
    (maxPolls reg0 address : Nat) :
    (callFunction running maxPolls reg0 address).polls ≤ maxPolls ∧
    ((∀ i, running i = true) →
      callFunction running maxPolls reg0 address
        = ⟨maxPolls, .error (FlashError.Timeout address)⟩) := by
  constructor
  · rcases hf : (List.range maxPolls).find? (fun i => ! running i) with _ | i
    · unfold callFunction
      rw [hf]
    · have hlt := List.mem_range.mp (List.mem_of_find?_eq_some hf)
      unfold callFunction
      rw [hf]
      show i + 1 ≤ maxPolls
      omega
  · intro hrun
    have hnone : (List.range maxPolls).find? (fun i => ! running i) = none := by
      rw [List.find?_eq_none]
      intro x _
      rw [hrun x]
      simp
    unfold callFunction
    rw [hnone]

/-- Concrete check of C5: a target that never halts times out after exactly
the 3 configured polls. -/
theorem call_function_timeout_bounded_witness :
    (callFunction (fun _ => true) 3 0 4096).polls ≤ 3 ∧
    callFunction (fun _ => true) 3 0 4096
      = ⟨3, .error (FlashError.Timeout 4096)⟩ :=
  ⟨(call_function_timeout_bounded (fun _ => true) 3 0 4096).1,
   (call_function_timeout_bounded (fun _ => true) 3 0 4096).2 (fun _ => rfl)⟩

/-! ## Descriptor Parser (claim C4) -/

/-- Modelled from the spec: `AlgorithmParseError` (§4.2): malformed input, a
missing mandatory function, or an invalid layout. -/
inductive AlgorithmParseError
  | Malformed
  | MissingFunction (name : String)
  | InvalidLayout (reason : String)
deriving DecidableEq, Repr

/-- Modelled from the spec: the structured key/value content of a textual
algorithm descriptor (§4.2, §6): code reference, optional function offsets,
page/sector sizes, RAM usage. -/
structure DescriptorInput where
  code : List Nat
  load_address : Nat
  init : Option Nat
  uninit : Option Nat
  erase_sector : Option Nat
  program_page : Option Nat
  erase_all : Option Nat
  page_size : Nat
  sector_size : Nat
  stack_top : Nat
deriving DecidableEq, Repr

/-- Modelled from the spec: a relocatable binary object (§4.2): a symbol
table in which the well-known function symbols are located by name, plus the
layout data read from its sections. -/
structure ObjectInput where
  symbols : List (String × Nat)
  code : List Nat
  load_address : Nat
  page_size : Nat
  sector_size : Nat
  stack_top : Nat
deriving DecidableEq, Repr

/-- Look a well-known symbol up in an object's symbol table. -/
def lookupSymbol (syms : List (String × Nat)) (name : String) : Option Nat :=
  (syms.find? (fun p => p.1 == name)).map (fun p => p.2)

/-- Modelled from the spec: the `FlashAlgorithm` invariant validation (§3,
§4.2) shared by both parser entry points: a missing `program_page` or
`erase_sector` entry point fails with `MissingFunction` naming it — no
default offset is ever invented — then code non-emptiness and the
page/sector layout are checked. -/
def validateDescriptor (d : DescriptorInput) :
    Except AlgorithmParseError FlashAlgorithm :=
  match d.program_page with
  | none => .error (.MissingFunction "program_page")
  | some pp =>
    match d.erase_sector with
    | none => .error (.MissingFunction "erase_sector")
    | some es =>
      if d.code.isEmpty then .error .Malformed
      else if d.page_size = 0 then .error (.InvalidLayout "page_size is zero")
      else if d.sector_size % d.page_size ≠ 0 then
        .error (.InvalidLayout "sector_size not a multiple of page_size")
      else .ok ⟨d.code, d.load_address, ⟨d.init, d.uninit, es, pp, d.erase_all⟩,
        d.page_size, d.sector_size, d.stack_top, 255⟩

/-- Modelled from the spec: `parse_text` (§4.2), over the structured content
of a textual descriptor. -/
def parse_text (d : DescriptorInput) : Except AlgorithmParseError FlashAlgorithm :=
  validateDescriptor d

/-- The descriptor content `parse_object` extracts from an object: the
well-known symbols `Init`, `UnInit`, `EraseSector`, `ProgramPage`,
`EraseChip` located by name in the symbol table. -/
def descriptorOfObject (o : ObjectInput) : DescriptorInput :=
  ⟨o.code, o.load_address,
    lookupSymbol o.symbols "Init", lookupSymbol o.symbols "UnInit",
    lookupSymbol o.symbols "EraseSector", lookupSymbol o.symbols "ProgramPage",
    lookupSymbol o.symbols "EraseChip", o.page_size, o.sector_size, o.stack_top⟩

/-- Modelled from the spec: `parse_object` (§4.2): locate the well-known
symbols, then validate exactly like `parse_text`. -/
def parse_object (o : ObjectInput) : Except AlgorithmParseError FlashAlgorithm :=
  validateDescriptor (descriptorOfObject o)

theorem validateDescriptor_missing (d : DescriptorInput)
    (hd : d.program_page = none ∨ d.erase_sector = none) :
    ∃ name, validateDescriptor d
        = .error (AlgorithmParseError.MissingFunction name) ∧
      ((name = "program_page" ∧ d.program_page = none) ∨
       (name = "erase_sector" ∧ d.erase_sector = none)) := by
  rcases hpp : d.program_page with _ | pp
  · refine ⟨"program_page", ?_, Or.inl ⟨rfl, rfl⟩⟩
    unfold validateDescriptor
    rw [hpp]
  · rcases hes : d.erase_sector with _ | es
    · refine ⟨"erase_sector", ?_, Or.inr ⟨rfl, rfl⟩⟩
      unfold validateDescriptor
      rw [hpp, hes]
    · rcases hd with h | h
      · rw [hpp] at h; cases h
      · rw [hes] at h; cases h

/-- Claim C4: a descriptor missing the `program_page` or `erase_sector`
entry point is rejected by `parse_text` — and an object whose symbol table
lacks `ProgramPage` or `EraseSector` by `parse_object` — with
`MissingFunction` naming an absent mandatory function; no default offset is
substituted (no success is possible), and the parsers are pure, so the same
input is rejected identically on every attempt. -/
theorem parser_missing_function (d : DescriptorInput) (o : ObjectInput)
    (hd : d.program_page = none ∨ d.erase_sector = none)
    (ho : lookupSymbol o.symbols "ProgramPage" = none ∨
      lookupSymbol o.symbols "EraseSector" = none) :
    (∃ name, parse_text d = .error (AlgorithmParseError.MissingFunction name) ∧
      ((name = "program_page" ∧ d.program_page = none) ∨
       (name = "erase_sector" ∧ d.erase_sector = none))) ∧
    (∃ name, parse_object o = .error (AlgorithmParseError.MissingFunction name) ∧
      ((name = "program_page" ∧ lookupSymbol o.symbols "ProgramPage" = none) ∨
       (name = "erase_sector" ∧ lookupSymbol o.symbols "EraseSector" = none))) ∧
    (∀ algo, parse_text d ≠ .ok algo) ∧
    (∀ algo, parse_object o ≠ .ok algo) := by
  have h1 := validateDescriptor_missing d hd
  have h2 := validateDescriptor_missing (descriptorOfObject o) ho
  refine ⟨h1, h2, ?_, ?_⟩
  · intro algo heq
    rcases h1 with ⟨name, hname, _⟩
    rw [show parse_text d = validateDescriptor d from rfl, hname] at heq
    exact Except.noConfusion heq
  · intro algo heq
    rcases h2 with ⟨name, hname, _⟩
    rw [show parse_object o = validateDescriptor (descriptorOfObject o) from rfl,
      hname] at heq
    exact Except.noConfusion heq

/-- The C4 witness descriptor: well-formed except that `erase_sector` is
absent. -/
def wDescriptor : DescriptorInput :=
  ⟨[1, 2], 0, some 0, none, none, some 32, none, 4, 8, 64⟩

/-- The C4 witness object: its symbol table lacks `EraseSector`. -/
def wObject : ObjectInput :=
  ⟨[("ProgramPage", 32), ("Init", 0)], [1, 2], 0, 4, 8, 64⟩

/-- Concrete check of C4: both parsers reject inputs lacking the
`erase_sector` entry point with `MissingFunction`. -/
theorem parser_missing_function_witness :
    (∃ name, parse_text wDescriptor
        = .error (AlgorithmParseError.MissingFunction name) ∧
      ((name = "program_page" ∧ wDescriptor.program_page = none) ∨
       (name = "erase_sector" ∧ wDescriptor.erase_sector = none))) ∧
    (∃ name, parse_object wObject
        = .error (AlgorithmParseError.MissingFunction name) ∧
      ((name = "program_page" ∧ lookupSymbol wObject.symbols "ProgramPage" = none) ∨
       (name = "erase_sector" ∧ lookupSymbol wObject.symbols "EraseSector" = none))) ∧
    (∀ algo, parse_text wDescriptor ≠ .ok algo) ∧
    (∀ algo, parse_object wObject ≠ .ok algo) :=
  parser_missing_function wDescriptor wObject (Or.inr rfl) (Or.inr (by decide))

/-! ## CLI boundary (claims C7, C8), from src/cli/src/main.rs -/

/-- The CLI error type: `TargetSelectionError` is the variant `main`
distinguishes (src/cli/src/main.rs:133); `CliError` itself lives in the
absent `common.rs`, so the remaining variants are modelled from the spec as
one generic constructor ("every other error is rendered generically"). -/
inductive CliError
  | TargetSelectionError (message : String)
  | OtherError (message : String)
deriving DecidableEq, Repr

/-- The two user-facing renderings `main` can print on error: the
distinguished target-selection message and the generic one. -/
inductive CliMessage
  | friendlyTargetSelection (detail : String)
  | genericError (detail : String)
deriving DecidableEq, Repr

/-- What the process does after a command returns: exit code and message. -/
structure ProcessOutcome where
  exitCode : Nat
  message : Option CliMessage
deriving DecidableEq, Repr

/-- The detail string of an error (its `Display` rendering). -/
def describeError : CliError → String
  | .TargetSelectionError m => m
  | .OtherError m => m

/-- Embeds `main`'s result handling (src/cli/src/main.rs:132-139): on `Err`,
print the distinguished message exactly for `TargetSelectionError` and the
generic message with the error's detail otherwise, then exit with status 1;
on `Ok`, exit normally. -/
def handleCliResult : Except CliError Unit → ProcessOutcome
  | .ok _ => ⟨0, none⟩
  | .error (CliError.TargetSelectionError m) =>
    ⟨1, some (.friendlyTargetSelection m)⟩
  | .error (CliError.OtherError m) =>
    ⟨1, some (.genericError (describeError (CliError.OtherError m)))⟩

/-- Claim C7: a successful command exits 0 with no error message; every
command error exits with the non-zero status 1; the distinguished message is
printed exactly for `TargetSelectionError`, and every other error gets the
generic message carrying its detail. -/
theorem main_error_reporting :
    handleCliResult (Except.ok ()) = ⟨0, none⟩ ∧
    ∀ e : CliError,
      (handleCliResult (Except.error e)).exitCode = 1 ∧
      ((∃ m, e = CliError.TargetSelectionError m) ↔
        (∃ m, (handleCliResult (Except.error e)).message
          = some (CliMessage.friendlyTargetSelection m))) ∧
      (∀ m, e = CliError.OtherError m →
        (handleCliResult (Except.error e)).message
          = some (CliMessage.genericError (describeError e))) := by
  refine ⟨rfl, ?_⟩
  intro e
  cases e with
  | TargetSelectionError m =>
    refine ⟨rfl, ⟨fun _ => ⟨m, rfl⟩, fun _ => ⟨m, rfl⟩⟩, ?_⟩
    intro m2 hm
    exact CliError.noConfusion hm
  | OtherError m =>
    refine ⟨rfl, ⟨?_, ?_⟩, fun m2 _ => rfl⟩
    · rintro ⟨m2, hm⟩
      exact CliError.noConfusion hm
    · rintro ⟨m2, hm⟩
      exact CliMessage.noConfusion (Option.some.inj hm)

/-- Concrete check of C7: an `OtherError` exits 1 with the generic message
carrying its detail. -/
theorem main_error_reporting_witness :
    (handleCliResult (Except.error (CliError.OtherError "io failure"))).exitCode
        = 1 ∧
    (handleCliResult (Except.error (CliError.OtherError "io failure"))).message
      = some (CliMessage.genericError
          (describeError (CliError.OtherError "io failure"))) :=
  ⟨(main_error_reporting.2 (CliError.OtherError "io failure")).1,
   (main_error_reporting.2 (CliError.OtherError "io failure")).2.2
     "io failure" rfl⟩

/-- The probe calls the CLI reset path can issue: `target_reset()` (a pulse)
or an explicit drive of the reset line.  The explicit-drive variant is
modelled from the spec (§4.1); `main.rs` only ever issues `target_reset`. -/
inductive ProbeCommand
  | targetReset
  | driveResetLine (asserted : Bool)
deriving DecidableEq, Repr

/-- Embeds `reset_target_of_device` (src/cli/src/main.rs:200-209): the CLI
`assert` argument arrives as the deliberately unused `_assert`, and the body
always calls `session.probe.target_reset()`. -/
def reset_target_of_device (assert : Option Bool) : ProbeCommand :=
  ProbeCommand.targetReset

/-- Modelled from the spec: the reset semantics the `reset` command's own
help text and §4.1 document: `Some(b)` drives the reset line explicitly,
`None` pulses it. -/
def specCliReset (assert : Option Bool) : ProbeCommand :=
  match assert with
  | some b => ProbeCommand.driveResetLine b
  | none => ProbeCommand.targetReset

/-- Claim C8 (refuted by the code): `reset_target_of_device` ignores its
`assert` argument — every invocation issues the same `target_reset()` pulse,
so `Some(true)` does not drive the reset line as the command's help text and
the spec describe. -/
theorem cli_reset_ignores_assert :
    (∀ a1 a2 : Option Bool,
      reset_target_of_device a1 = reset_target_of_device a2) ∧
    reset_target_of_device (some true) = ProbeCommand.targetReset ∧
    reset_target_of_device (some false) = ProbeCommand.targetReset ∧
    reset_target_of_device none = ProbeCommand.targetReset ∧
    reset_target_of_device (some true) ≠ specCliReset (some true) :=
  ⟨fun _ _ => rfl, rfl, rfl, rfl, fun h => ProbeCommand.noConfusion h⟩

/-! ## Target Descriptor Registry (claim C9), from src/ocd-targets/build.rs -/

/-- ASCII lowercasing of one byte, as Rust's `to_ascii_lowercase`. -/
def asciiLowerByte (b : Nat) : Nat := if 65 ≤ b ∧ b ≤ 90 then b + 32 else b

/-- ASCII lowercasing of a name given as its byte string. -/
def asciiLowerName (n : List Nat) : List Nat := n.map asciiLowerByte

/-- A bundled target: its parsed name (ASCII bytes) and its descriptor
source text, as collected by build.rs from `targets/`. -/
structure BundledTarget where
  name : List Nat
  source : String
deriving DecidableEq, Repr

/-- Embeds the `TARGETS` table generation (src/ocd-targets/build.rs:74-87
and 111-113): every successfully parsed target is keyed by
`target.name.to_ascii_lowercase()` with its descriptor text as value. -/
def mkTargetTable (ts : List BundledTarget) : List (List Nat × String) :=
  ts.map (fun t => (asciiLowerName t.name, t.source))

/-- Modelled from the spec: `TargetSelectionError::UnknownTarget(name)`
(§4.6, §7). -/
inductive TargetSelectionError
  | UnknownTarget (name : List Nat)
deriving DecidableEq, Repr

/-- Modelled from the spec: `select(name)` (§4.6): case-insensitive lookup
in the registry table, failing with `UnknownTarget(name)` when absent. -/
def selectTarget (table : List (List Nat × String)) (name : List Nat) :
    Except TargetSelectionError String :=
  match table.find? (fun p => p.1 == asciiLowerName name) with
  | some p => .ok p.2
  | none => .error (.UnknownTarget name)

theorem asciiLowerByte_idem (b : Nat) :
    asciiLowerByte (asciiLowerByte b) = asciiLowerByte b := by
  unfold asciiLowerByte
  by_cases h : 65 ≤ b ∧ b ≤ 90
  · rw [if_pos h, if_neg (by omega)]
  · rw [if_neg h, if_neg h]

theorem asciiLowerName_idem (n : List Nat) :
    asciiLowerName (asciiLowerName n) = asciiLowerName n := by
  unfold asciiLowerName
  rw [List.map_map]
  exact List.map_congr_left (fun a _ => asciiLowerByte_idem a)

/-- Claim C9: `select` on the bundled registry is case-insensitive — two
names with the same ASCII lowercasing select the same descriptor — it fails
with `UnknownTarget(name)` exactly when no bundled descriptor's name matches
case-insensitively, and every key of the generated table is already
lowercased. -/
theorem registry_select_case_insensitive (ts : List BundledTarget)
    (n1 n2 : List Nat) (h : asciiLowerName n1 = asciiLowerName n2) :
    (∀ s, selectTarget (mkTargetTable ts) n1 = .ok s ↔
      selectTarget (mkTargetTable ts) n2 = .ok s) ∧
    (selectTarget (mkTargetTable ts) n1
        = .error (TargetSelectionError.UnknownTarget n1) ↔
      ∀ t ∈ ts, asciiLowerName t.name ≠ asciiLowerName n1) ∧
    (∀ k s, (k, s) ∈ mkTargetTable ts → asciiLowerName k = k) := by
  refine ⟨?_, ?_, ?_⟩
  · intro s
    unfold selectTarget
    rw [h]
    rcases hf : (mkTargetTable ts).find?
        (fun p => p.1 == asciiLowerName n2) with _ | p
    · rw [hf]
      exact ⟨fun hc => absurd hc (fun hc2 => Except.noConfusion hc2),
        fun hc => absurd hc (fun hc2 => Except.noConfusion hc2)⟩
    · rw [hf]
  · constructor
    · intro hsel t ht heq
      rcases hf : (mkTargetTable ts).find?
          (fun p => p.1 == asciiLowerName n1) with _ | p
      · rw [List.find?_eq_none] at hf
        have hmem : (asciiLowerName t.name, t.source) ∈ mkTargetTable ts :=
          List.mem_map.mpr ⟨t, ht, rfl⟩
        apply hf _ hmem
        show (asciiLowerName t.name == asciiLowerName n1) = true
        exact beq_iff_eq.mpr heq
      · unfold selectTarget at hsel
        rw [hf] at hsel
        exact Except.noConfusion hsel
    · intro hall
      unfold selectTarget
      have hnone : (mkTargetTable ts).find?
          (fun p => p.1 == asciiLowerName n1) = none := by
        rw [List.find?_eq_none]
        intro p hp
        rcases List.mem_map.mp hp with ⟨t, ht, hpe⟩
        subst hpe
        intro hbeq
        exact hall t ht (beq_iff_eq.mp hbeq)
      rw [hnone]
  · intro k s hks
    rcases List.mem_map.mp hks with ⟨t, _, hpe⟩
    have hk : k = asciiLowerName t.name := congrArg Prod.fst hpe.symm
    rw [hk, asciiLowerName_idem]

/-- Concrete check of C9: the names "nRF51" and "NRF51" (as ASCII bytes)
select the same bundled descriptor. -/
theorem registry_select_case_insensitive_witness :
    asciiLowerName [110, 82, 70, 53, 49] = asciiLowerName [78, 82, 70, 53, 49] ∧
    ∀ s, selectTarget (mkTargetTable [⟨[110, 82, 70, 53, 49], "nrf51 source"⟩])
        [110, 82, 70, 53, 49] = .ok s ↔
      selectTarget (mkTargetTable [⟨[110, 82, 70, 53, 49], "nrf51 source"⟩])
        [78, 82, 70, 53, 49] = .ok s :=
  ⟨by decide,
   (registry_select_case_insensitive [⟨[110, 82, 70, 53, 49], "nrf51 source"⟩]
     [110, 82, 70, 53, 49] [78, 82, 70, 53, 49] (by decide)).1⟩

/-! ## Process configuration (claim C10), from src/probe-rs/src/config.rs -/

/-- Embeds `Config` (src/probe-rs/src/config.rs:13-15): the configuration
struct currently carries no fields. -/
structure Config where
deriving DecidableEq, Repr

/-- The `Default::default()` configuration. -/
def Config.default : Config := ⟨⟩

/-- Embeds `Error` (src/probe-rs/src/config.rs:17-21): a config-crate error
or an I/O error, with the payloads modelled as their rendered detail. -/
inductive ConfigLoadError
  | ConfigErr (detail : String)
  | IoErr (detail : String)
deriving DecidableEq, Repr

/-- The file-system and parser effects `Config::new` performs, provided as
an environment: the home directory (if any), whether the config file already
exists, and the outcomes of creating/writing the default file, merging it,
and deserializing the merged configuration. -/
structure ConfigEnv where
  homeDir : Option String
  configFileExists : Bool
  createWriteOutcome : Except ConfigLoadError Unit
  mergeOutcome : Except ConfigLoadError Unit
  deserializeOutcome : Except ConfigLoadError Config

/-- Embeds `Config::new` (src/probe-rs/src/config.rs:36-56): when a home
directory is found, create the default config file if absent, merge it and
deserialize, propagating any error; when no home directory can be
determined, return `Ok` of the default configuration. -/
def Config.new (env : ConfigEnv) : Except ConfigLoadError Config :=
  match env.homeDir with
  | none => .ok Config.default
  | some _ =>
    match (if env.configFileExists then Except.ok () else env.createWriteOutcome) with
    | .error e => .error e
    | .ok _ =>
      match env.mergeOutcome with
      | .error e => .error e
      | .ok _ => env.deserializeOutcome

/-- Embeds the `CONFIG` lazy static (src/probe-rs/src/config.rs:4-9): the
process-wide configuration is `Config::new()`'s value, with any error
replaced by the default configuration. -/
def CONFIG (env : ConfigEnv) : Config :=
  match Config.new env with
  | .ok c => c
  | .error _ => Config.default

/-- Claim C10: evaluating `CONFIG` never propagates an error — whenever
`Config::new` returns any `Err`, `CONFIG` is the default configuration —
and when no home directory can be determined `Config::new` itself returns
`Ok` with the default configuration instead of failing. -/
theorem config_never_propagates (env : ConfigEnv) :
    (∀ e, Config.new env = .error e → CONFIG env = Config.default) ∧
    (env.homeDir = none → Config.new env = .ok Config.default) := by
  constructor
  · intro e he
    unfold CONFIG
    rw [he]
  · intro hh
    unfold Config.new
    rw [hh]

/-- Concrete check of C10: a failing deserialization still yields the
default `CONFIG`, and a missing home directory yields `Ok` of the default
from `Config.new`. -/
theorem config_never_propagates_witness :
    CONFIG ⟨some "/root", true, Except.ok (), Except.ok (),
        Except.error (ConfigLoadError.ConfigErr "bad toml")⟩ = Config.default ∧
    Config.new ⟨none, false, Except.ok (), Except.ok (),
        Except.ok Config.default⟩ = Except.ok Config.default :=
  ⟨(config_never_propagates _).1 (ConfigLoadError.ConfigErr "bad toml") rfl,
   (config_never_propagates _).2 rfl⟩
